import Mathlib

/-! Verification of the resilient execution core of the
`python-etl-mailing-automation` repository, as a shallow embedding:
work-unit splitting and parallel dispatch (`src/etl/parallel.py`,
`src/etl/batch_optimizer.py`), adaptive and memory-bounded batch sizing
(`src/etl/batch_optimizer.py`), retry with exponential backoff
(`src/etl/retry.py`), and the checkpoint store (`src/etl/checkpoint.py`).

Conventions of the embedding:
* a pandas `DataFrame` is abstracted by its row count `L`; the slice
  `df.iloc[a:b]` is the half-open row range `(a, b)`;
* Python floats are embedded as exact rationals; the float literals
  `0.8` / `1.2` in the sizing rules denote the constants 4/5 and 6/5;
* a Python callable that may raise is embedded as an `Except`-valued
  function whose `.error` payload is the raised exception object;
* the completion order of a thread pool's `as_completed` iteration is an
  arbitrary permutation of the submitted futures, passed explicitly.
-/

namespace ETL

/-- Severity of a log call; the dispatch loop logs unit failures with
`logger.error`, the retry loop uses `logger.warning` and `logger.error`. -/
inductive LogLevel where
  | info
  | warning
  | error
  deriving DecidableEq, Repr

/-- A work unit: the half-open row range `[start, stop)` of a contiguous
slice `df.iloc[start:stop]` of a dataset. -/
abbrev WorkUnit : Type := ℕ × ℕ

/-- The rows covered by a work unit, in order. -/
def unitRows (u : WorkUnit) : List ℕ := List.range' u.1 (u.2 - u.1)

/-- Number of rows of a work unit. -/
def unitLen (u : WorkUnit) : ℕ := u.2 - u.1

/-- The slicing loop `for start in range(0, L, cs)` that both
`ParallelProcessor.split_dataframe` and
`ParallelBatchProcessor.process_parallel` use to cut a dataset of `L` rows
into slices `df.iloc[start : start + cs]`.  `fuel` bounds the number of
iterations; `fuel = L` is enough whenever `1 ≤ cs`. -/
def sliceGo (cs : ℕ) : ℕ → ℕ → ℕ → List WorkUnit
  | 0, _, _ => []
  | fuel + 1, start, L =>
    if start < L then (start, min (start + cs) L) :: sliceGo cs fuel (start + cs) L
    else []

/-- All slices `(start, min (start + cs) L)` for `start in range(0, L, cs)`. -/
def sliceRanges (L cs : ℕ) : List WorkUnit := sliceGo cs L 0 L

/-- `ParallelProcessor.split_dataframe` (src/etl/parallel.py, lines 32-52):
`n_chunks = n_chunks or self.n_workers` (both `None` and `0` are falsy in
Python), `chunk_size = len(df) // n_chunks + 1`, then slices of
`chunk_size` rows each. -/
def split_dataframe (n_workers L : ℕ) (n_chunks : Option ℕ) : List WorkUnit :=
  let n := match n_chunks with
    | none => n_workers
    | some 0 => n_workers
    | some (m + 1) => m + 1
  sliceRanges L (L / n + 1)

/-- The `as_completed` loop of `ParallelBatchProcessor.process_parallel`
(src/etl/batch_optimizer.py, lines 195-209), run over the futures in the
completion order `completed`: a successful future contributes the pair
`(batch_idx, result)`, a failing one contributes `(batch_idx, None)` plus
an error-level log line `"Erro no batch {batch_idx}: {e}"`; the collected
pairs are then sorted by batch index and the indices projected away. -/
def dispatch {E α : Type} (f : WorkUnit → Except E α)
    (completed : List (ℕ × WorkUnit)) : List (Option α) × List (LogLevel × ℕ) :=
  let outcomes := completed.map fun p => (p.1, f p.2)
  let slots := outcomes.map fun q => (q.1, q.2.toOption)
  let logs := outcomes.filterMap fun q =>
    match q.2 with
    | .error _ => some (LogLevel.error, q.1)
    | .ok _ => none
  let sorted := slots.mergeSort fun a b => decide (a.1 ≤ b.1)
  (sorted.map Prod.snd, logs)

/-- `ParallelBatchProcessor.process_parallel`: split the `L` rows into
batches of `batch_size` rows, submit every batch, consume the futures in
the completion order produced by `sched` (an arbitrary reordering of the
submitted, index-tagged batches) and reassemble. -/
def process_parallel {E α : Type} (L batch_size : ℕ) (f : WorkUnit → Except E α)
    (sched : List (ℕ × WorkUnit) → List (ℕ × WorkUnit)) :
    List (Option α) × List (LogLevel × ℕ) :=
  dispatch f (sched (sliceRanges L batch_size).enum)

/-- State of `AdaptiveBatchProcessor` (src/etl/batch_optimizer.py): current
size, configured bounds, target duration (seconds, exact), history. -/
structure SizerState where
  batch_size : ℕ
  min_batch_size : ℕ
  max_batch_size : ℕ
  target_time : ℚ
  batch_times : List ℚ
  deriving DecidableEq, Repr

/-- `AdaptiveBatchProcessor.__init__` (lines 18-38): stores the four
configuration values and an empty duration history.  The body performs no
validation whatsoever; the `Except` layer records that no exception can be
raised at construction, whatever the configuration. -/
def adaptive_init (initial_size min_size max_size : ℕ) (target : ℚ) :
    Except String SizerState :=
  .ok ⟨initial_size, min_size, max_size, target, []⟩

/-- `AdaptiveBatchProcessor._adjust_batch_size` (lines 40-52).  For every
Python int `s` of realistic size (below 2^49) the CPython double products
`s * 0.8` and `s * 1.2` round to the double nearest the exact values
`4s/5` and `6s/5`, so `int(...)` truncates them to `⌊4s/5⌋ = s*8/10` and
`⌊6s/5⌋ = s*12/10` in ℕ division; the embedding computes those exact
values. -/
def adjust_batch_size (st : SizerState) (execution_time : ℚ) : SizerState :=
  if st.target_time * (6/5) < execution_time then
    { st with
      batch_size := max (st.batch_size * 8 / 10) st.min_batch_size,
      batch_times := st.batch_times ++ [execution_time] }
  else if execution_time < st.target_time * (4/5) then
    { st with
      batch_size := min (st.batch_size * 12 / 10) st.max_batch_size,
      batch_times := st.batch_times ++ [execution_time] }
  else
    { st with batch_times := st.batch_times ++ [execution_time] }

/-- Python `int()` applied to a float: truncation toward zero. -/
def pytrunc (q : ℚ) : ℤ := if 0 ≤ q then q.floor else -(-q).floor

/-- `MemoryEfficientBatchProcessor._estimate_batch_size` (lines 113-125).
`mem_usage k` stands for `df.head(k).memory_usage(deep=True).sum()`, the
measured footprint in bytes of the `k`-row prefix (a positive numpy
int64: even an empty frame's index occupies bytes).  For an empty dataset
`sample_size` is `0` and numpy evaluates `memory_per_row = int64 / 0` to
float64 positive infinity (no exception); `none` stands for that
infinity, and `max_memory_bytes / +inf` is `0.0`. -/
def estimate_batch_size (max_memory_mb : ℕ) (L : ℕ) (mem_usage : ℕ → ℚ) : ℕ :=
  let sample_size := min 1000 L
  let memory_per_row : Option ℚ :=
    if sample_size = 0 then none
    else some (mem_usage sample_size / (sample_size : ℚ))
  let max_memory_bytes : ℚ := (max_memory_mb : ℚ) * 1024 * 1024
  let raw : ℚ :=
    match memory_per_row with
    | none => 0
    | some m => max_memory_bytes / m * (4/5)
  (max 100 (min (pytrunc raw) (L : ℤ))).toNat

/-- The configuration `RetryConfig` (src/etl/retry.py, lines 13-26);
`retryable e` is membership of the raised exception `e` in
`config.exceptions`. -/
structure RetryConfig (E : Type) where
  max_attempts : ℕ
  delay : ℚ
  backoff_factor : ℚ
  max_delay : ℚ
  retryable : E → Bool

/-- The counters of `RetryManager.retry_stats`. -/
structure RetryStats where
  total_operations : ℕ
  successful_first_try : ℕ
  successful_with_retry : ℕ
  failed : ℕ
  deriving DecidableEq, Repr

/-- How one call of `RetryManager.execute_with_retry` ends. -/
inductive RetryOutcome (E α : Type) where
  /-- `return result` out of attempt number `attempt`. -/
  | returned (a : α) (attempt : ℕ)
  /-- bare `raise` of the just-caught exception on the last attempt:
      the original object propagates unmodified. -/
  | raised (e : E)
  /-- the raised exception does not match `config.exceptions` and
      propagates uncaught out of the loop at once. -/
  | uncaught (e : E)
  /-- the loop body never ran (`max_attempts = 0`) and
      `raise last_exception` fires with the stored value. -/
  | exhausted (last : Option E)
  deriving DecidableEq, Repr

/-- The `for attempt in range(1, max_attempts + 1)` loop of
`RetryManager.execute_with_retry` (lines 96-121).  `f attempt` is the
outcome of the `attempt`-th call of `func`; `fuel` is the number of
attempts still allowed (starting at `max_attempts`, so the loop index
never passes `max_attempts`), `cd` the live `current_delay`, `lastE` the
stored `last_exception` and `sleeps` the `time.sleep` calls so far. -/
def retryGo {E α : Type} (ret : E → Bool) (bf maxD : ℚ) (maxA : ℕ)
    (f : ℕ → Except E α) :
    ℕ → ℕ → ℚ → Option E → List ℚ → RetryOutcome E α × List ℚ
  | 0, _, _, lastE, sleeps => (.exhausted lastE, sleeps)
  | fuel + 1, attempt, cd, _, sleeps =>
    match f attempt with
    | .ok a => (.returned a attempt, sleeps)
    | .error e =>
      if ret e then
        if attempt = maxA then (.raised e, sleeps)
        else retryGo ret bf maxD maxA f fuel (attempt + 1)
          (min (cd * bf) maxD) (some e) (sleeps ++ [cd])
      else (.uncaught e, sleeps)

/-- The statistics bookkeeping of `execute_with_retry`:
`total_operations` is incremented on entry, then exactly one counter
according to the outcome (`attempt == 1` separates first-try successes). -/
def updateStats {E α : Type} (st : RetryStats) (o : RetryOutcome E α) : RetryStats :=
  let st := { st with total_operations := st.total_operations + 1 }
  match o with
  | .returned _ attempt =>
    if attempt = 1 then
      { st with successful_first_try := st.successful_first_try + 1 }
    else
      { st with successful_with_retry := st.successful_with_retry + 1 }
  | .raised _ => { st with failed := st.failed + 1 }
  | .uncaught _ => st
  | .exhausted _ => st

/-- `RetryManager.execute_with_retry` (lines 80-121): run the attempt loop
and update `self.retry_stats`; yields (outcome, sleeps) and new stats. -/
def execute_with_retry {E α : Type} (cfg : RetryConfig E) (f : ℕ → Except E α)
    (stats : RetryStats) : (RetryOutcome E α × List ℚ) × RetryStats :=
  let r := retryGo cfg.retryable cfg.backoff_factor cfg.max_delay
    cfg.max_attempts f cfg.max_attempts 1 cfg.delay none []
  (r, updateStats stats r.1)

/-- The JSON record `checkpoint_data` written by
`CheckpointManager.create_checkpoint`; `metadata` is the free-form dict. -/
structure MetaRecord where
  checkpoint_id : String
  pipeline_name : String
  step : String
  timestamp : String
  metadata : List (String × String)
  deriving DecidableEq, Repr

/-- Observable state of a `CheckpointManager` over state blobs `σ`: the
content of `{id}_meta.json` and `{id}_data.pkl` per checkpoint id (the
two file families live in disjoint name spaces, so keying each map by the
bare id is faithful), plus `self.current_checkpoint`. -/
structure CheckpointStore (σ : Type) where
  metaFiles : String → Option MetaRecord
  dataFiles : String → Option σ
  current_checkpoint : Option String

/-- `CheckpointManager.create_checkpoint` (src/etl/checkpoint.py, lines
38-78).  `cid` is the value of `_generate_checkpoint_id` (an md5 digest of
pipeline name and wall-clock timestamp, passed explicitly because it
depends on the clock); `ts` the `datetime.now().isoformat()` written into
the record.  `json.dump` stores the record, `pickle.dump` the state blob;
both round-trip by value, so the payloads are kept as-is. -/
def create_checkpoint {σ : Type} (st : CheckpointStore σ)
    (cid pipeline_name step ts : String) (data : σ)
    (metadata : List (String × String)) : CheckpointStore σ × String :=
  let record : MetaRecord := ⟨cid, pipeline_name, step, ts, metadata⟩
  (⟨Function.update st.metaFiles cid (some record),
    Function.update st.dataFiles cid (some data),
    some cid⟩, cid)

/-- `CheckpointManager.load_checkpoint` (lines 80-107): raise
`FileNotFoundError` when either half is missing, otherwise return the
parsed metadata together with the unpickled data. -/
def load_checkpoint {σ : Type} (st : CheckpointStore σ) (cid : String) :
    Except String (MetaRecord × σ) :=
  match st.metaFiles cid, st.dataFiles cid with
  | some m, some d => .ok (m, d)
  | _, _ => .error "FileNotFoundError"

/-- `Path.unlink()` with no arguments: remove the file, raising
`FileNotFoundError` when it does not exist. -/
def unlink {β : Type} (files : String → Option β) (name : String) :
    Except String (String → Option β) :=
  match files name with
  | some _ => .ok (Function.update files name none)
  | none => .error "FileNotFoundError"

/-- `CheckpointManager.delete_checkpoint` (lines 149-165): each half is
unlinked only behind its own existence check. -/
def delete_checkpoint {σ : Type} (st : CheckpointStore σ) (cid : String) :
    Except String (CheckpointStore σ) :=
  match (if (st.metaFiles cid).isSome then unlink st.metaFiles cid
         else .ok st.metaFiles) with
  | .error e => .error e
  | .ok metaFiles' =>
    match (if (st.dataFiles cid).isSome then unlink st.dataFiles cid
           else .ok st.dataFiles) with
    | .error e => .error e
    | .ok dataFiles' =>
      .ok { st with metaFiles := metaFiles', dataFiles := dataFiles' }

end ETL

namespace ETL

/-- `Rat.floor` (the executable floor used by the embedding of `int()`) is
the mathematical floor. -/
lemma rat_floor_eq (q : ℚ) : q.floor = ⌊q⌋ :=
  (Rat.floor_def' q).trans Rat.floor_def.symm

/-- One adjustment step keeps an in-band size in band: shrinking never
produces more than the current size and is floored at the minimum, growing
never produces less than the current size and is capped at the maximum. -/
lemma adjust_preserves_bounds (st : SizerState) (d : ℚ)
    (h1 : st.min_batch_size ≤ st.batch_size)
    (h2 : st.batch_size ≤ st.max_batch_size) :
    (adjust_batch_size st d).min_batch_size ≤ (adjust_batch_size st d).batch_size
    ∧ (adjust_batch_size st d).batch_size ≤ (adjust_batch_size st d).max_batch_size := by
  have hdiv8 : st.batch_size * 8 / 10 ≤ st.batch_size := by
    calc st.batch_size * 8 / 10 ≤ st.batch_size * 10 / 10 :=
          Nat.div_le_div_right (Nat.mul_le_mul_left _ (by norm_num))
      _ = st.batch_size := Nat.mul_div_cancel st.batch_size (by norm_num)
  have hdiv12 : st.batch_size ≤ st.batch_size * 12 / 10 := by
    calc st.batch_size = st.batch_size * 10 / 10 :=
          (Nat.mul_div_cancel st.batch_size (by norm_num)).symm
      _ ≤ st.batch_size * 12 / 10 :=
          Nat.div_le_div_right (Nat.mul_le_mul_left _ (by norm_num))
  unfold adjust_batch_size
  split_ifs <;> simp <;> omega

/-- Bounds and target are configuration: no adjustment step changes them. -/
lemma adjust_preserves_config (st : SizerState) (d : ℚ) :
    (adjust_batch_size st d).min_batch_size = st.min_batch_size
    ∧ (adjust_batch_size st d).max_batch_size = st.max_batch_size := by
  unfold adjust_batch_size
  split_ifs <;> exact ⟨rfl, rfl⟩

end ETL

namespace ETL

/-- Claim C4: for every sizer state with nonnegative target duration `t`
and observed duration `d`: `d > 1.2*t` shrinks the size to
`max(floor(0.8*s), min)`; `d < 0.8*t` grows it to `min(floor(1.2*s), max)`;
`0.8*t ≤ d ≤ 1.2*t` leaves it unchanged.  Starting from size 1000 with
target 1.0s, durations `[1.5, 1.5, 0.5]` make the size evolve
`1000 → 800 → 640 → 768`. -/
theorem adjust_rule_spec (st : SizerState) (d : ℚ) (ht : 0 ≤ st.target_time) :
    (st.target_time * (6/5) < d →
      (adjust_batch_size st d).batch_size
        = max (st.batch_size * 8 / 10) st.min_batch_size) ∧
    (d < st.target_time * (4/5) →
      (adjust_batch_size st d).batch_size
        = min (st.batch_size * 12 / 10) st.max_batch_size) ∧
    (st.target_time * (4/5) ≤ d → d ≤ st.target_time * (6/5) →
      (adjust_batch_size st d).batch_size = st.batch_size) ∧
    (([3/2, 3/2, 1/2] : List ℚ).scanl adjust_batch_size
        ⟨1000, 100, 10000, 1, []⟩).map SizerState.batch_size
      = [1000, 800, 640, 768] := by
  refine ⟨?_, ?_, ?_, ?_⟩
  · intro h
    unfold adjust_batch_size
    rw [if_pos h]
  · intro h
    have hband : st.target_time * (4/5) ≤ st.target_time * (6/5) :=
      mul_le_mul_of_nonneg_left (by norm_num) ht
    have hno : ¬ st.target_time * (6/5) < d :=
      not_lt.mpr (le_of_lt (lt_of_lt_of_le h hband))
    unfold adjust_batch_size
    rw [if_neg hno, if_pos h]
  · intro h1 h2
    unfold adjust_batch_size
    rw [if_neg (not_lt.mpr h2), if_neg (not_lt.mpr h1)]
  · norm_num [List.scanl, adjust_batch_size]

/-- Witness for C4 at a concrete state: a duration of 2s against target 1s
exceeds the 1.2s band edge, so the size shrinks to
`max(floor(0.8*1000), 100) = 800`. -/
theorem adjust_rule_spec_witness :
    (adjust_batch_size ⟨1000, 100, 10000, 1, []⟩ 2).batch_size
      = max (1000 * 8 / 10) 100 :=
  (adjust_rule_spec ⟨1000, 100, 10000, 1, []⟩ 2 (by norm_num)).1 (by norm_num)

/-- Claim C8 (amended): the in-band invariant holds only from an in-band
start: if the current size lies in `[min_batch_size, max_batch_size]`,
then after every adjustment step of any duration sequence it still does.
(A size configured outside the interval is not pulled into it by an
in-band duration; see the counterexample.) -/
theorem adaptive_size_in_bounds (st : SizerState) (ds : List ℚ)
    (hmin : st.min_batch_size ≤ st.batch_size)
    (hmax : st.batch_size ≤ st.max_batch_size) :
    ∀ s ∈ ds.scanl adjust_batch_size st,
      s.min_batch_size ≤ s.batch_size ∧ s.batch_size ≤ s.max_batch_size := by
  induction ds generalizing st with
  | nil =>
    intro s hs
    rw [List.scanl] at hs
    simp only [List.mem_singleton] at hs
    subst hs
    exact ⟨hmin, hmax⟩
  | cons d ds ih =>
    intro s hs
    rw [List.scanl] at hs
    rcases List.mem_cons.mp hs with h | h
    · subst h
      exact ⟨hmin, hmax⟩
    · have hb := adjust_preserves_bounds st d hmin hmax
      exact ih (adjust_batch_size st d) hb.1 hb.2 s h

/-- Counterexample to C8 as stated: a sizer whose initial size 20000 lies
above `max_batch_size = 10000` observes the in-band duration 1.0s (target
1.0s); the adjustment leaves the size at 20000, outside `[100, 10000]`. -/
theorem adaptive_size_out_of_bounds :
    (adjust_batch_size ⟨20000, 100, 10000, 1, []⟩ 1).batch_size = 20000 ∧
    ¬ (adjust_batch_size ⟨20000, 100, 10000, 1, []⟩ 1).batch_size
        ≤ (⟨20000, 100, 10000, 1, []⟩ : SizerState).max_batch_size := by
  norm_num [adjust_batch_size]

/-- Witness for C8 (amended) at a concrete in-band state and a one-element
duration sequence. -/
theorem adaptive_size_in_bounds_witness :
    (⟨1000, 100, 10000, 1, []⟩ : SizerState).min_batch_size
        ≤ (⟨1000, 100, 10000, 1, []⟩ : SizerState).batch_size
    ∧ (⟨1000, 100, 10000, 1, []⟩ : SizerState).batch_size
        ≤ (⟨1000, 100, 10000, 1, []⟩ : SizerState).max_batch_size :=
  adaptive_size_in_bounds ⟨1000, 100, 10000, 1, []⟩ [2] (by norm_num) (by norm_num)
    ⟨1000, 100, 10000, 1, []⟩ (by rw [List.scanl]; exact List.mem_cons_self _ _)

/-- Claim C9 (code bug in the source): `AdaptiveBatchProcessor.__init__`
performs no validation, so the invalid configuration
`min_batch_size = 500 > 100 = max_batch_size` is accepted silently at
construction instead of failing fast. -/
theorem adaptive_init_no_validation :
    adaptive_init 1000 500 100 1 = .ok ⟨1000, 500, 100, 1, []⟩ ∧ 100 < 500 :=
  ⟨rfl, by norm_num⟩

end ETL

namespace ETL

/-- Claim C7: the memory-bounded sizer samples a prefix of at most 1000
rows (the whole dataset if smaller); for a nonempty dataset with positive
measured footprint the one static size is
`floor(ceiling_bytes * 0.8 / bytes_per_row)` clamped to
`[100, dataset_length]` (100 is the processor's fixed minimum, applied as
the outer clamp, so it wins over a shorter dataset); an empty dataset
yields that minimum, 100, without failing. -/
theorem memory_estimate_spec (max_memory_mb L : ℕ) (mem_usage : ℕ → ℚ) :
    (L = 0 → estimate_batch_size max_memory_mb L mem_usage = 100) ∧
    (0 < L → 0 < mem_usage (min 1000 L) →
      estimate_batch_size max_memory_mb L mem_usage
        = (max 100 (min
            ⌊(max_memory_mb : ℚ) * 1024 * 1024 * (4/5)
              / (mem_usage (min 1000 L) / ((min 1000 L : ℕ) : ℚ))⌋
            (L : ℤ))).toNat) := by
  constructor
  · intro h
    subst h
    rfl
  · intro hL hm
    have hs : ¬ min 1000 L = 0 := by omega
    have hsq : (0 : ℚ) < ((min 1000 L : ℕ) : ℚ) := by
      exact_mod_cast Nat.pos_of_ne_zero hs
    have hraw : (0 : ℚ) ≤ (max_memory_mb : ℚ) * 1024 * 1024
        / (mem_usage (min 1000 L) / ((min 1000 L : ℕ) : ℚ)) * (4/5) := by
      have hrow : (0 : ℚ) < mem_usage (min 1000 L) / ((min 1000 L : ℕ) : ℚ) :=
        div_pos hm hsq
      positivity
    simp only [estimate_batch_size, if_neg hs]
    rw [pytrunc, if_pos hraw, rat_floor_eq, div_mul_eq_mul_div]

/-- Witness for C7: the empty dataset yields 100; a one-row dataset with a
4-byte footprint and a 1 MB ceiling computes
`floor(1048576 * 0.8 / 4) = 209715` and the clamp to `[100, 1]` gives 100. -/
theorem memory_estimate_spec_witness :
    estimate_batch_size 1 0 (fun _ => 4) = 100 ∧
    estimate_batch_size 1 1 (fun _ => 4) = 100 := by
  constructor
  · exact (memory_estimate_spec 1 0 (fun _ => 4)).1 rfl
  · have h := (memory_estimate_spec 1 1 (fun _ => 4)).2 (by norm_num) (by norm_num)
    rw [h]
    norm_num
    rfl

/-- Claim C6: loading the id just created returns the pickled state
unchanged and the metadata record carrying the supplied pipeline name and
step name (together with the id, the timestamp and the free-form dict). -/
theorem checkpoint_roundtrip {σ : Type} (st : CheckpointStore σ)
    (cid pipe stepName ts : String) (data : σ)
    (metadata : List (String × String)) :
    load_checkpoint (create_checkpoint st cid pipe stepName ts data metadata).1 cid
      = .ok (⟨cid, pipe, stepName, ts, metadata⟩, data) := by
  simp [load_checkpoint, create_checkpoint, Function.update_same]

/-- Claim C10: deleting a checkpoint never raises (each half is unlinked
only behind its own existence check, so a missing or already-deleted id is
skipped), and deleting the same id twice gives the same store as deleting
it once. -/
theorem delete_total_idempotent {σ : Type} (st : CheckpointStore σ) (cid : String) :
    (∃ st', delete_checkpoint st cid = .ok st') ∧
    (∀ st', delete_checkpoint st cid = .ok st' →
      delete_checkpoint st' cid = .ok st') := by
  have hcompute : ∀ (s : CheckpointStore σ),
      delete_checkpoint s cid = .ok
        ⟨if (s.metaFiles cid).isSome then Function.update s.metaFiles cid none
          else s.metaFiles,
         if (s.dataFiles cid).isSome then Function.update s.dataFiles cid none
          else s.dataFiles,
         s.current_checkpoint⟩ := by
    intro s
    cases h1 : s.metaFiles cid <;> cases h2 : s.dataFiles cid <;>
      simp [delete_checkpoint, unlink, h1, h2]
  refine ⟨⟨_, hcompute st⟩, ?_⟩
  intro st' hst'
  rw [hcompute st] at hst'
  injection hst' with hst'
  have hm : st'.metaFiles cid = none := by
    rw [← hst']
    by_cases h : (st.metaFiles cid).isSome
    · simp [h, Function.update_same]
    · simp only [if_neg h]
      exact Option.not_isSome_iff_eq_none.mp h
  have hd : st'.dataFiles cid = none := by
    rw [← hst']
    by_cases h : (st.dataFiles cid).isSome
    · simp [h, Function.update_same]
    · simp only [if_neg h]
      exact Option.not_isSome_iff_eq_none.mp h
  rw [hcompute st']
  simp [hm, hd]

/-- Witness for C10: on a concrete store holding one checkpoint under id
"c1", the deletion that the total-deletion theorem yields is idempotent. -/
theorem delete_total_idempotent_witness :
    delete_checkpoint
        (⟨fun i => if i = "c1" then some ⟨"c1", "p", "s", "t", []⟩ else none,
          fun i => if i = "c1" then some 0 else none,
          some "c1"⟩ : CheckpointStore ℕ)
        "c1"
      = .ok ⟨fun _ => none, fun _ => none, some "c1"⟩ →
    delete_checkpoint (⟨fun _ => none, fun _ => none, some "c1"⟩ : CheckpointStore ℕ)
        "c1"
      = .ok ⟨fun _ => none, fun _ => none, some "c1"⟩ :=
  (delete_total_idempotent
    (⟨fun i => if i = "c1" then some ⟨"c1", "p", "s", "t", []⟩ else none,
      fun i => if i = "c1" then some 0 else none,
      some "c1"⟩ : CheckpointStore ℕ) "c1").2
    ⟨fun _ => none, fun _ => none, some "c1"⟩

end ETL

namespace ETL

/-- A list sorted by its ℕ key is determined among the permutations of a
strictly key-sorted list: sorting the collected `(index, value)` pairs by
index restores the submission order. -/
lemma eq_of_perm_of_sortedKeys {α : Type} :
    ∀ {l₁ l₂ : List (ℕ × α)}, l₁.Perm l₂ →
      List.Pairwise (fun a b : ℕ × α => a.1 ≤ b.1) l₁ →
      List.Pairwise (fun a b : ℕ × α => a.1 < b.1) l₂ →
      l₁ = l₂ := by
  intro l₁ l₂ h h₁ h₂
  induction l₂ generalizing l₁ with
  | nil => exact h.eq_nil
  | cons b t ih =>
    cases l₁ with
    | nil => exact absurd h.symm.eq_nil (List.cons_ne_nil b t)
    | cons a s =>
      have hab : a = b := by
        have ha : a ∈ b :: t := h.subset (List.mem_cons_self a s)
        rcases List.mem_cons.mp ha with h' | h'
        · exact h'
        · have hb_lt : b.1 < a.1 := (List.pairwise_cons.mp h₂).1 a h'
          have hb_mem : b ∈ a :: s := h.symm.subset (List.mem_cons_self b t)
          rcases List.mem_cons.mp hb_mem with h'' | h''
          · exact h''.symm
          · have hle : a.1 ≤ b.1 := (List.pairwise_cons.mp h₁).1 b h''
            exact absurd hb_lt (not_lt.mpr hle)
      subst hab
      exact congrArg (List.cons a)
        (ih h.cons_inv (List.pairwise_cons.mp h₁).2 (List.pairwise_cons.mp h₂).2)

/-- The index tags produced by enumerating the submitted batches are
strictly increasing. -/
lemma enum_keys_strict {α : Type} (l : List α) :
    List.Pairwise (fun p q : ℕ × α => p.1 < q.1) l.enum := by
  have h := List.pairwise_lt_range l.length
  rw [← List.enum_map_fst l] at h
  exact List.pairwise_map.mp h

/-- Core of the dispatcher's ordering guarantee: for any completion order
(a permutation of the enumerated units), the sorted, projected slot list
is the per-unit outcome list in submission order. -/
lemma dispatch_slots {E α : Type} (f : WorkUnit → Except E α)
    (us : List WorkUnit) (completed : List (ℕ × WorkUnit))
    (hp : completed.Perm us.enum) :
    (dispatch f completed).1 = us.map fun u => (f u).toOption := by
  have hperm : (completed.map fun p : ℕ × WorkUnit => (p.1, (f p.2).toOption)).Perm
      (us.enum.map fun p : ℕ × WorkUnit => (p.1, (f p.2).toOption)) :=
    hp.map _
  have hsorted_le : List.Pairwise (fun a b : ℕ × Option α => a.1 ≤ b.1)
      (((completed.map fun p : ℕ × WorkUnit => (p.1, (f p.2).toOption)).mergeSort
        fun a b => decide (a.1 ≤ b.1))) := by
    have h := @List.sorted_mergeSort (ℕ × Option α)
      (fun a b => decide (a.1 ≤ b.1))
      (fun a b c hab hbc => by
        simp only [decide_eq_true_eq] at hab hbc ⊢
        omega)
      (fun a b => by
        rcases Nat.le_total a.1 b.1 with h | h <;> simp [h])
      (completed.map fun p : ℕ × WorkUnit => (p.1, (f p.2).toOption))
    exact h.imp fun hab => by simpa using hab
  have htarget : List.Pairwise (fun a b : ℕ × Option α => a.1 < b.1)
      (us.enum.map fun p : ℕ × WorkUnit => (p.1, (f p.2).toOption)) := by
    exact List.pairwise_map.mpr (enum_keys_strict us)
  have hmain : ((completed.map fun p : ℕ × WorkUnit => (p.1, (f p.2).toOption)).mergeSort
        fun a b => decide (a.1 ≤ b.1))
      = us.enum.map fun p : ℕ × WorkUnit => (p.1, (f p.2).toOption) :=
    eq_of_perm_of_sortedKeys ((List.mergeSort_perm _ _).trans hperm) hsorted_le htarget
  calc (dispatch f completed).1
      = (((completed.map fun p : ℕ × WorkUnit => (p.1, (f p.2).toOption)).mergeSort
          fun a b => decide (a.1 ≤ b.1))).map Prod.snd := by
        simp only [dispatch, List.map_map]
        rfl
    _ = (us.enum.map fun p : ℕ × WorkUnit => (p.1, (f p.2).toOption)).map Prod.snd := by
        rw [hmain]
    _ = us.map fun u => (f u).toOption := by
        rw [List.map_map]
        have hcomp : (Prod.snd ∘ fun p : ℕ × WorkUnit => (p.1, (f p.2).toOption))
            = (fun u => (f u).toOption) ∘ Prod.snd := rfl
        rw [hcomp, ← List.map_map, List.enum_map_snd]

end ETL

namespace ETL

/-- Once the loop index has reached the dataset end, no further slice is
produced. -/
lemma sliceGo_eq_nil (cs fuel start L : ℕ) (h : ¬ start < L) :
    sliceGo cs fuel start L = [] := by
  cases fuel with
  | zero => rfl
  | succ n => simp [sliceGo, h]

/-- A nonempty tail of the slicing loop means the loop index was still
inside the dataset. -/
lemma sliceGo_ne_nil (cs fuel start L : ℕ) (h : sliceGo cs fuel start L ≠ []) :
    start < L := by
  by_contra hc
  exact h (sliceGo_eq_nil cs fuel start L hc)

/-- The rows of the produced slices, concatenated in order, are exactly
the remaining rows `[start, L)`: no row is lost, none duplicated. -/
lemma sliceGo_flatMap (cs : ℕ) :
    ∀ (fuel start L : ℕ), L ≤ start + fuel * cs →
      (sliceGo cs fuel start L).flatMap unitRows = List.range' start (L - start) := by
  intro fuel
  induction fuel with
  | zero =>
    intro start L hL
    simp only [Nat.zero_mul, Nat.add_zero] at hL
    rw [sliceGo, Nat.sub_eq_zero_of_le hL]
    rfl
  | succ n ih =>
    intro start L hL
    rw [Nat.succ_mul] at hL
    by_cases h : start < L
    · simp only [sliceGo, if_pos h, List.flatMap_cons]
      by_cases h2 : start + cs ≤ L
      · rw [min_eq_left h2, ih (start + cs) L (by omega)]
        show List.range' start (start + cs - start) ++ _ = _
        rw [Nat.add_sub_cancel_left]
        have happ := List.range'_append start cs (L - (start + cs)) 1
        rw [Nat.one_mul] at happ
        rw [happ]
        congr 1
        omega
      · rw [min_eq_right (le_of_not_le h2),
          sliceGo_eq_nil cs n (start + cs) L (by omega)]
        simp [unitRows]
    · rw [sliceGo_eq_nil cs (n + 1) start L h,
        Nat.sub_eq_zero_of_le (le_of_not_lt h)]
      rfl

/-- The slices of a dataset of `L` rows cover exactly the rows `0..L-1`,
in order. -/
lemma sliceRanges_flatMap (L cs : ℕ) (hcs : 0 < cs) :
    (sliceRanges L cs).flatMap unitRows = List.range L := by
  have hfuel : L ≤ 0 + L * cs := by
    calc L = L * 1 := (Nat.mul_one L).symm
      _ ≤ L * cs := Nat.mul_le_mul_left L hcs
      _ = 0 + L * cs := (Nat.zero_add _).symm
  rw [sliceRanges, sliceGo_flatMap cs L 0 L hfuel, Nat.sub_zero,
    List.range_eq_range']

/-- Every slice holds at most `cs` rows. -/
lemma sliceGo_len_le (cs : ℕ) :
    ∀ (fuel start L : ℕ), ∀ p ∈ sliceGo cs fuel start L, unitLen p ≤ cs := by
  intro fuel
  induction fuel with
  | zero =>
    intro start L p hp
    rw [sliceGo] at hp
    simp at hp
  | succ n ih =>
    intro start L p hp
    by_cases h : start < L
    · simp only [sliceGo, if_pos h] at hp
      rcases List.mem_cons.mp hp with h' | h'
      · subst h'
        simp only [unitLen]
        omega
      · exact ih (start + cs) L p h'
    · rw [sliceGo_eq_nil cs (n + 1) start L h] at hp
      simp at hp

/-- Every slice except possibly the last holds exactly `cs` rows. -/
lemma sliceGo_dropLast_len (cs : ℕ) :
    ∀ (fuel start L : ℕ), ∀ p ∈ (sliceGo cs fuel start L).dropLast,
      unitLen p = cs := by
  intro fuel
  induction fuel with
  | zero =>
    intro start L p hp
    rw [sliceGo] at hp
    simp at hp
  | succ n ih =>
    intro start L p hp
    by_cases h : start < L
    · simp only [sliceGo, if_pos h] at hp
      cases hrest : sliceGo cs n (start + cs) L with
      | nil =>
        rw [hrest] at hp
        simp at hp
      | cons b t =>
        rw [hrest, List.dropLast_cons₂] at hp
        rcases List.mem_cons.mp hp with h' | h'
        · subst h'
          have hin : start + cs ≤ L := by
            have := sliceGo_ne_nil cs n (start + cs) L (by rw [hrest]; simp)
            omega
          simp only [unitLen, min_eq_left hin]
          omega
        · rw [← hrest] at h'
          exact ih (start + cs) L p h'
    · rw [sliceGo_eq_nil cs (n + 1) start L h] at hp
      simp at hp

end ETL

namespace ETL

/-- Claim C1: for a dataset of `L` rows split for `n ≥ 1` workers
(`split_dataframe` with the default chunk count) and dispatched through
the `process_parallel` machinery under an arbitrary completion order, the
returned list is the per-unit result list in original sequence-index
order, and the units' row ranges reconstruct exactly the rows `0..L-1`
with no loss and no duplication. -/
theorem parallel_order_partition {α : Type} (L n : ℕ) (hn : 1 ≤ n)
    (f : WorkUnit → α)
    (sched : List (ℕ × WorkUnit) → List (ℕ × WorkUnit))
    (hsched : (sched (split_dataframe n L none).enum).Perm
      (split_dataframe n L none).enum) :
    (process_parallel L (L / n + 1)
        (fun u => (Except.ok (f u) : Except Unit α)) sched).1
      = (split_dataframe n L none).map (fun u => some (f u)) ∧
    (split_dataframe n L none).flatMap unitRows = List.range L := by
  constructor
  · have h := dispatch_slots (fun u => (Except.ok (f u) : Except Unit α))
      (split_dataframe n L none) (sched (split_dataframe n L none).enum) hsched
    exact h
  · exact sliceRanges_flatMap L (L / n + 1) (Nat.succ_pos _)

/-- Witness for C1: 5 rows, 2 workers (chunk size 3, units `(0,3)` and
`(3,5)`), completion order reversed; the result list is still in
submission order and the ranges cover `0..4`. -/
theorem parallel_order_partition_witness :
    (process_parallel 5 (5 / 2 + 1)
        (fun u => (Except.ok u : Except Unit WorkUnit)) List.reverse).1
      = (split_dataframe 2 5 none).map (fun u => some u) ∧
    (split_dataframe 2 5 none).flatMap unitRows = List.range 5 :=
  parallel_order_partition 5 2 (by norm_num) (fun u => u) List.reverse
    (List.reverse_perm _)

/-- Claim C5 (amended): splitting is deterministic and defaults to the
configured worker count, but the chunk length is `len // n + 1`, not
`ceil(len/n)`: every non-final chunk has exactly `L / n + 1` rows, every
chunk at most that many; 10,000 rows for 4 workers give 4 units of sizes
2501, 2501, 2501 and 2497. -/
theorem split_chunk_sizes (n_workers L : ℕ) :
    split_dataframe n_workers L none = sliceRanges L (L / n_workers + 1) ∧
    (∀ p ∈ (split_dataframe n_workers L none).dropLast,
      unitLen p = L / n_workers + 1) ∧
    (∀ p ∈ split_dataframe n_workers L none, unitLen p ≤ L / n_workers + 1) ∧
    (split_dataframe 4 10000 none).map unitLen = [2501, 2501, 2501, 2497] := by
  refine ⟨rfl, ?_, ?_, ?_⟩
  · exact sliceGo_dropLast_len (L / n_workers + 1) L 0 L
  · exact sliceGo_len_le (L / n_workers + 1) L 0 L
  · decide

/-- Counterexample to C5 as stated: `10000 // 4 + 1 = 2501`, so the four
units have sizes 2501, 2501, 2501, 2497 and not 2500 each (the first is
not of size `ceil(10000/4) = 2500` although it is not the final
remainder chunk). -/
theorem split_not_ceil :
    (split_dataframe 4 10000 none).map unitLen = [2501, 2501, 2501, 2497] ∧
    (split_dataframe 4 10000 none).map unitLen ≠ [2500, 2500, 2500, 2500] := by
  constructor
  · decide
  · decide

/-- Witness for C5 (amended) on 10 rows and 3 workers (chunk size 4,
units `(0,4) (4,8) (8,10)`): a non-final chunk has exactly 4 rows, the
final one at most 4. -/
theorem split_chunk_sizes_witness :
    unitLen (0, 4) = 10 / 3 + 1 ∧ unitLen (8, 10) ≤ 10 / 3 + 1 :=
  ⟨(split_chunk_sizes 3 10).2.1 (0, 4) (by decide),
   (split_chunk_sizes 3 10).2.2.1 (8, 10) (by decide)⟩

end ETL

namespace ETL

/-- Over a strictly key-sorted list on which `g` fires exactly at key `i`,
`filterMap g` is the singleton of the fired value. -/
lemma filterMap_eq_single_of_keyed {α β : Type} (g : ℕ × α → Option β) (x : β)
    (i : ℕ) :
    ∀ (l : List (ℕ × α)),
      List.Pairwise (fun a b : ℕ × α => a.1 < b.1) l →
      (∀ p ∈ l, p.1 = i → g p = some x) →
      (∀ p ∈ l, p.1 ≠ i → g p = none) →
      (∃ p ∈ l, p.1 = i) →
      l.filterMap g = [x] := by
  intro l
  induction l with
  | nil =>
    intro _ _ _ hex
    simp at hex
  | cons a t ih =>
    intro hpw hsome hnone hex
    by_cases ha : a.1 = i
    · have htail : t.filterMap g = [] := by
        apply List.filterMap_eq_nil_iff.mpr
        intro p hp
        apply hnone p (List.mem_cons_of_mem a hp)
        have := (List.pairwise_cons.mp hpw).1 p hp
        omega
      simp only [List.filterMap_cons, hsome a (List.mem_cons_self a t) ha, htail]
    · have hex' : ∃ p ∈ t, p.1 = i := by
        rcases hex with ⟨p, hp, hpi⟩
        rcases List.mem_cons.mp hp with h' | h'
        · subst h'
          exact absurd hpi ha
        · exact ⟨p, h', hpi⟩
      simp only [List.filterMap_cons, hnone a (List.mem_cons_self a t) ha]
      exact ih (List.pairwise_cons.mp hpw).2
        (fun p hp => hsome p (List.mem_cons_of_mem a hp))
        (fun p hp => hnone p (List.mem_cons_of_mem a hp)) hex'

/-- When the unit function fails exactly at sequence index `i`, the
dispatch loop logs exactly one error-level event, for unit `i`,
regardless of completion order. -/
lemma dispatch_logs_single {E α : Type} (f : WorkUnit → Except E α)
    (us : List WorkUnit) (completed : List (ℕ × WorkUnit)) (i : ℕ) (e : E)
    (hp : completed.Perm us.enum) (hi : i < us.length)
    (hfail : ∀ p ∈ us.enum, p.1 = i → f p.2 = .error e)
    (hok : ∀ p ∈ us.enum, p.1 ≠ i → ∃ w, f p.2 = .ok w) :
    (dispatch f completed).2 = [(LogLevel.error, i)] := by
  have hlogs : (dispatch f completed).2 = completed.filterMap fun p =>
      match f p.2 with
      | .error _ => some (LogLevel.error, p.1)
      | .ok _ => none := by
    simp only [dispatch, List.filterMap_map]
    rfl
  have hlen : i < us.enum.length := by
    rw [List.enum_length]
    exact hi
  have htarget : (us.enum.filterMap fun p =>
      match f p.2 with
      | .error _ => some (LogLevel.error, p.1)
      | .ok _ => none) = [(LogLevel.error, i)] := by
    apply filterMap_eq_single_of_keyed _ _ i us.enum (enum_keys_strict us)
    · intro p hp' hpi
      rw [hfail p hp' hpi, hpi]
    · intro p hp' hpi
      rcases hok p hp' hpi with ⟨w, hw⟩
      rw [hw]
    · exact ⟨us.enum[i], List.getElem_mem hlen, by rw [List.getElem_enum]⟩
  rw [hlogs]
  have hpermlog := hp.filterMap fun p : ℕ × WorkUnit =>
    match f p.2 with
    | .error _ => some (LogLevel.error, p.1)
    | .ok _ => none
  rw [htarget] at hpermlog
  exact List.perm_singleton.mp hpermlog

/-- Claim C3 (amended): a dispatch of `m` units whose unit function raises
exactly on index `i` returns `m` slots, slot `i` the failure marker
`None`, every other slot `j` the value produced for unit `j` — siblings
run to completion — and exactly one log message is emitted for unit `i`,
at error level (the source logs the unit failure with `logger.error`, not
as a warning). -/
theorem dispatch_isolates_failure {E α : Type} (f : WorkUnit → Except E α)
    (us : List WorkUnit) (completed : List (ℕ × WorkUnit)) (i : ℕ) (e : E)
    (v : ℕ → α)
    (hp : completed.Perm us.enum) (hi : i < us.length)
    (hfail : ∀ p ∈ us.enum, p.1 = i → f p.2 = .error e)
    (hok : ∀ p ∈ us.enum, p.1 ≠ i → f p.2 = .ok (v p.1)) :
    (dispatch f completed).1.length = us.length ∧
    (dispatch f completed).1[i]? = some none ∧
    (∀ j, j < us.length → j ≠ i →
      (dispatch f completed).1[j]? = some (some (v j))) ∧
    (dispatch f completed).2 = [(LogLevel.error, i)] := by
  have hslots := dispatch_slots f us completed hp
  have hmem : ∀ j (hj : j < us.length), (j, us[j]) ∈ us.enum := by
    intro j hj
    have hj' : j < us.enum.length := by
      rw [List.enum_length]
      exact hj
    have := List.getElem_mem hj'
    rwa [List.getElem_enum] at this
  refine ⟨?_, ?_, ?_, ?_⟩
  · rw [hslots, List.length_map]
  · rw [hslots, List.getElem?_map, List.getElem?_eq_getElem hi]
    have hfi := hfail (i, us[i]) (hmem i hi) rfl
    simp [hfi, Except.toOption]
  · intro j hj hji
    rw [hslots, List.getElem?_map, List.getElem?_eq_getElem hj]
    have hfj := hok (j, us[j]) (hmem j hj) hji
    simp [hfj, Except.toOption]
  · exact dispatch_logs_single f us completed i e hp hi hfail
      (fun p hp' hpi => ⟨v p.1, hok p hp' hpi⟩)

/-- Equality of embedded call outcomes is decidable (needed to check the
concrete scenario hypotheses by evaluation). -/
instance {E α : Type} [DecidableEq E] [DecidableEq α] :
    DecidableEq (Except E α)
  | .error a, .error b =>
    if h : a = b then .isTrue (congrArg Except.error h)
    else .isFalse fun hc => h (Except.error.inj hc)
  | .error _, .ok _ => .isFalse fun hc => Except.noConfusion hc
  | .ok _, .error _ => .isFalse fun hc => Except.noConfusion hc
  | .ok a, .ok b =>
    if h : a = b then .isTrue (congrArg Except.ok h)
    else .isFalse fun hc => h (Except.ok.inj hc)

/-- The unit function of the concrete C3 scenario: 10,000 rows in units of
2,500, where the unit starting at row 5000 (sequence index 2) raises and
every other unit returns its own sequence index. -/
def scenarioUnitFn : WorkUnit → Except String ℕ := fun u =>
  if u.1 = 5000 then .error "boom" else .ok (u.1 / 2500)

/-- Witness for C3 on the 10,000-row scenario (4 units of 2,500 rows,
completion order reversed): 4 slots, slot 2 the failure marker, slot 3 a
value, and one error-level log event for unit 2. -/
theorem dispatch_isolates_failure_witness :
    (dispatch scenarioUnitFn (sliceRanges 10000 2500).enum.reverse).1.length
      = (sliceRanges 10000 2500).length ∧
    (dispatch scenarioUnitFn (sliceRanges 10000 2500).enum.reverse).1[2]?
      = some none ∧
    (dispatch scenarioUnitFn (sliceRanges 10000 2500).enum.reverse).1[3]?
      = some (some 3) ∧
    (dispatch scenarioUnitFn (sliceRanges 10000 2500).enum.reverse).2
      = [(LogLevel.error, 2)] := by
  have h := dispatch_isolates_failure scenarioUnitFn (sliceRanges 10000 2500)
    (sliceRanges 10000 2500).enum.reverse 2 "boom" (fun j => j)
    (List.reverse_perm _) (by decide) (by decide) (by decide)
  exact ⟨h.1, h.2.1, h.2.2.1 3 (by decide) (by decide), h.2.2.2⟩

/-- Counterexample to C3 as stated: in the 10,000-row scenario the single
log event for unit 2 is emitted at error level (`logger.error`), and no
warning-level event is logged at all, so "a single warning is logged for
unit 2" fails. -/
theorem dispatch_failure_logs_error_not_warning :
    (process_parallel 10000 2500 scenarioUnitFn id).2 = [(LogLevel.error, 2)] ∧
    (∀ ev ∈ (process_parallel 10000 2500 scenarioUnitFn id).2,
      ev.1 ≠ LogLevel.warning) := by
  constructor
  · decide
  · decide

end ETL

namespace ETL

/-- A success out of attempt `a > 1` bumps exactly the
`successful_with_retry` counter (besides `total_operations`). -/
lemma updateStats_returned_retry {E α : Type} (stats : RetryStats) (v : α)
    (a : ℕ) (ha : ¬ a = 1) :
    updateStats stats (RetryOutcome.returned v a : RetryOutcome E α)
      = { stats with
            total_operations := stats.total_operations + 1,
            successful_with_retry := stats.successful_with_retry + 1 } := by
  simp [updateStats, ha]

/-- A re-raise on the last attempt bumps exactly the `failed` counter
(besides `total_operations`). -/
lemma updateStats_raised {E α : Type} (stats : RetryStats) (e : E) :
    updateStats stats (RetryOutcome.raised e : RetryOutcome E α)
      = { stats with
            total_operations := stats.total_operations + 1,
            failed := stats.failed + 1 } := by
  simp [updateStats]

/-- Loop analysis of the success path: if every attempt from the current
one up to `k` fails retryably and call `k+1` succeeds, and the loop may
still reach attempt `k+1` (`k + 1 ≤ maxA`), the run returns the success
value out of attempt `k+1`, whatever delay state it is in. -/
lemma retryGo_returns {E α : Type} (ret : E → Bool) (bf maxD : ℚ) (maxA : ℕ)
    (f : ℕ → Except E α) (k : ℕ) (v : α)
    (hsucc : f (k + 1) = .ok v) (hmax : k + 1 ≤ maxA) :
    ∀ (fuel attempt : ℕ) (cd : ℚ) (lastE : Option E) (sleeps : List ℚ),
      attempt + fuel = maxA + 1 → 1 ≤ attempt → attempt ≤ k + 1 →
      (∀ j, attempt ≤ j → j ≤ k → ∃ e, f j = .error e ∧ ret e = true) →
      (retryGo ret bf maxD maxA f fuel attempt cd lastE sleeps).1
        = .returned v (k + 1) := by
  intro fuel
  induction fuel with
  | zero =>
    intro attempt cd lastE sleeps hsum h1 h2 _
    omega
  | succ m ih =>
    intro attempt cd lastE sleeps hsum h1 h2 hfa
    by_cases hak : attempt = k + 1
    · subst hak
      simp [retryGo, hsucc]
    · have hak' : attempt ≤ k := by omega
      obtain ⟨e, he, hre⟩ := hfa attempt (le_refl _) hak'
      have hne : ¬ attempt = maxA := by omega
      simp only [retryGo, he, hre, if_true, if_neg hne]
      exact ih (attempt + 1) (min (cd * bf) maxD) (some e) (sleeps ++ [cd])
        (by omega) (by omega) (by omega) (fun j hj1 hj2 => hfa j (by omega) hj2)

/-- Loop analysis of the exhaustion path: if every attempt from the
current one up to `k ≥ maxA` fails retryably, the run ends with the bare
re-raise of the exception caught on the final attempt `maxA` — the
original object, unmodified. -/
lemma retryGo_raises {E α : Type} (ret : E → Bool) (bf maxD : ℚ) (maxA : ℕ)
    (f : ℕ → Except E α) (k : ℕ) :
    ∀ (fuel attempt : ℕ) (cd : ℚ) (lastE : Option E) (sleeps : List ℚ),
      attempt + fuel = maxA + 1 → 1 ≤ attempt → attempt ≤ maxA → maxA ≤ k →
      (∀ j, attempt ≤ j → j ≤ k → ∃ e, f j = .error e ∧ ret e = true) →
      ∃ e, f maxA = .error e ∧
        (retryGo ret bf maxD maxA f fuel attempt cd lastE sleeps).1
          = .raised e := by
  intro fuel
  induction fuel with
  | zero =>
    intro attempt cd lastE sleeps hsum h1 h2 _ _
    omega
  | succ m ih =>
    intro attempt cd lastE sleeps hsum h1 h2 hmaxk hfa
    obtain ⟨e, he, hre⟩ := hfa attempt (le_refl _) (by omega)
    by_cases hA : attempt = maxA
    · subst hA
      exact ⟨e, he, by simp [retryGo, he, hre]⟩
    · obtain ⟨e', he', hgo⟩ := ih (attempt + 1) (min (cd * bf) maxD) (some e)
        (sleeps ++ [cd]) (by omega) (by omega) (by omega) hmaxk
        (fun j hj1 hj2 => hfa j (by omega) hj2)
      refine ⟨e', he', ?_⟩
      simp only [retryGo, he, hre, if_true, if_neg hA]
      exact hgo

/-- Claim C2: a function that raises a retryable exception on its first
`k ≥ 1` calls and returns `v` on call `k+1`, run through
`execute_with_retry`: with `max_attempts ≥ k+1` it returns `v` (out of
attempt `k+1`) and bumps `successful_with_retry` by exactly one, leaving
`successful_first_try` and `failed` untouched; with
`1 ≤ max_attempts ≤ k` it re-raises the very exception object of the
last attempt, bumping only `failed`. -/
theorem retry_outcome_spec {E α : Type} (cfg : RetryConfig E)
    (f : ℕ → Except E α) (k : ℕ) (v : α) (stats : RetryStats) (hk : 1 ≤ k)
    (hfail : ∀ j, 1 ≤ j → j ≤ k → ∃ e, f j = .error e ∧ cfg.retryable e = true)
    (hsucc : f (k + 1) = .ok v) :
    (k + 1 ≤ cfg.max_attempts →
      (execute_with_retry cfg f stats).1.1 = .returned v (k + 1) ∧
      (execute_with_retry cfg f stats).2.successful_with_retry
        = stats.successful_with_retry + 1 ∧
      (execute_with_retry cfg f stats).2.successful_first_try
        = stats.successful_first_try ∧
      (execute_with_retry cfg f stats).2.failed = stats.failed) ∧
    (1 ≤ cfg.max_attempts → cfg.max_attempts ≤ k →
      ∃ e, f cfg.max_attempts = .error e ∧
        (execute_with_retry cfg f stats).1.1 = .raised e ∧
        (execute_with_retry cfg f stats).2.failed = stats.failed + 1 ∧
        (execute_with_retry cfg f stats).2.successful_with_retry
          = stats.successful_with_retry) := by
  constructor
  · intro hmax
    have hout := retryGo_returns cfg.retryable cfg.backoff_factor cfg.max_delay
      cfg.max_attempts f k v hsucc hmax cfg.max_attempts 1 cfg.delay none []
      (by omega) (by omega) (by omega) (fun j h1 h2 => hfail j h1 h2)
    have hstats : (execute_with_retry cfg f stats).2
        = updateStats stats (RetryOutcome.returned v (k + 1) : RetryOutcome E α) := by
      show updateStats stats (retryGo cfg.retryable cfg.backoff_factor
        cfg.max_delay cfg.max_attempts f cfg.max_attempts 1 cfg.delay none []).1 = _
      rw [hout]
    rw [hstats, updateStats_returned_retry stats v (k + 1) (by omega)]
    exact ⟨hout, rfl, rfl, rfl⟩
  · intro hmax1 hmaxk
    obtain ⟨e, he, hgo⟩ := retryGo_raises cfg.retryable cfg.backoff_factor
      cfg.max_delay cfg.max_attempts f k cfg.max_attempts 1 cfg.delay none []
      (by omega) (by omega) (by omega) hmaxk (fun j h1 h2 => hfail j h1 h2)
    have hstats : (execute_with_retry cfg f stats).2
        = updateStats stats (RetryOutcome.raised e : RetryOutcome E α) := by
      show updateStats stats (retryGo cfg.retryable cfg.backoff_factor
        cfg.max_delay cfg.max_attempts f cfg.max_attempts 1 cfg.delay none []).1 = _
      rw [hgo]
    rw [hstats, updateStats_raised stats e]
    exact ⟨e, he, hgo, rfl, rfl⟩

/-- The function of the C2 witness scenario: the first call raises a
retryable failure, the second returns 7. -/
def retryScenarioFn : ℕ → Except String ℕ := fun j =>
  if j = 1 then .error "transient" else .ok 7

/-- Witness for C2 with `k = 1`: under `max_attempts = 2` the call returns
7 out of attempt 2 and `successful_with_retry` goes from 0 to 1; under
`max_attempts = 1` the original first-attempt exception is re-raised and
`failed` goes from 0 to 1. -/
theorem retry_outcome_spec_witness :
    ((execute_with_retry ⟨2, 1, 2, 60, fun _ => true⟩ retryScenarioFn
        ⟨0, 0, 0, 0⟩).1.1 = .returned 7 2 ∧
      (execute_with_retry ⟨2, 1, 2, 60, fun _ => true⟩ retryScenarioFn
        ⟨0, 0, 0, 0⟩).2.successful_with_retry = 1) ∧
    ((execute_with_retry ⟨1, 1, 2, 60, fun _ => true⟩ retryScenarioFn
        ⟨0, 0, 0, 0⟩).1.1 = .raised "transient" ∧
      (execute_with_retry ⟨1, 1, 2, 60, fun _ => true⟩ retryScenarioFn
        ⟨0, 0, 0, 0⟩).2.failed = 1) := by
  have hfail : ∀ j, 1 ≤ j → j ≤ 1 →
      ∃ e, retryScenarioFn j = .error e ∧
        (⟨2, 1, 2, 60, fun _ => true⟩ : RetryConfig String).retryable e = true := by
    intro j h1 h2
    have hj : j = 1 := le_antisymm h2 h1
    subst hj
    exact ⟨"transient", rfl, rfl⟩
  have hfail' : ∀ j, 1 ≤ j → j ≤ 1 →
      ∃ e, retryScenarioFn j = .error e ∧
        (⟨1, 1, 2, 60, fun _ => true⟩ : RetryConfig String).retryable e = true := by
    intro j h1 h2
    have hj : j = 1 := le_antisymm h2 h1
    subst hj
    exact ⟨"transient", rfl, rfl⟩
  constructor
  · have h := (retry_outcome_spec ⟨2, 1, 2, 60, fun _ => true⟩ retryScenarioFn
      1 7 ⟨0, 0, 0, 0⟩ (le_refl 1) hfail rfl).1 (by norm_num)
    exact ⟨h.1, h.2.1⟩
  · have h := (retry_outcome_spec ⟨1, 1, 2, 60, fun _ => true⟩ retryScenarioFn
      1 7 ⟨0, 0, 0, 0⟩ (le_refl 1) hfail' rfl).2 (by norm_num) (by norm_num)
    obtain ⟨e, he, hr, hf, _⟩ := h
    have he' : e = "transient" := by
      have : retryScenarioFn 1 = .error "transient" := rfl
      rw [this] at he
      exact (Except.error.inj he).symm
    subst he'
    exact ⟨hr, hf⟩
  
end ETL
